import Mathlib

/-!
Verification development for the algobattle battle-orchestration engine.

The Python sources are shallowly embedded: pure data flow becomes Lean
functions, scores (Python floats) become rationals, byte strings become
lists of naturals, fallible steps return Option/Except, and the behaviour
of the untrusted team programs and of the problem plugin is abstracted
into explicit function-valued parameters of an environment record.
-/

namespace Algobattle

/-! ## Fight executor (algobattle/match.py)

`Match._one_fight`, `Match._run_generator` and `Match._run_solver` are
embedded over an environment that records the problem plugin's parser and
verifier callbacks and the (sandboxed, hence arbitrary) outputs of the two
team programs.  A Python value that may be `None` is an `Option`; Python's
truthiness test `not x` on parsed instances and solutions is modelled by
the plugin-determined predicates `falsyInstance`/`falsySolution`. -/

/-- Python's `not x` applied to an optional value: `None` is falsy, and a
present value is falsy exactly when the plugin-level predicate says so. -/
def pyNot (falsy : α → Bool) : Option α → Bool
  | none => true
  | some a => falsy a

/-- Environment of one fight: the problem plugin's callbacks
(`problem.parser` and `problem.verifier` in match.py) together with the
raw outputs produced by the sandboxed generator and solver containers.
`gen_encoded_output = none` models `run_subprocess` producing no (or
falsy, i.e. empty) output; likewise for the solver, whose output may
depend on the instance it was handed. -/
structure FightEnv (R I S : Type) where
  falsyInstance : I → Bool
  falsySolution : S → Bool
  gen_encoded_output : Option R
  solver_encoded_output : Option I → Option R
  decode : R → R
  split_into_instance_and_solution : R → R × R
  parse_instance : R → Nat → I
  parse_solution : R → Nat → S
  postprocess_instance : I → Nat → I
  verify_semantics_of_instance : I → Nat → Bool
  verify_semantics_of_solution : S → Nat → Bool → Bool
  verify_solution_against_instance : Option I → S → Nat → Bool → Bool
  approximation_ratio_fn : Option I → Nat → Option S → Option S → ℚ

/-- Embeds `Match._run_generator`: run the generator, decode and split its output,
parse instance and certificate, then verify instance semantics, solution
semantics and the certificate against the instance, in that order,
returning `(None, None)` on the first failure. -/
def run_generator (env : FightEnv R I S) (instance_size : Nat) : Option I × Option S :=
  match env.gen_encoded_output with
  | none => (none, none)
  | some encoded_output =>
    let raw_instance_with_solution := env.decode encoded_output
    let p := env.split_into_instance_and_solution raw_instance_with_solution
    let inst := env.parse_instance p.1 instance_size
    let generator_solution := env.parse_solution p.2 instance_size
    if !env.verify_semantics_of_instance inst instance_size then (none, none)
    else if !env.verify_semantics_of_solution generator_solution instance_size true then (none, none)
    else if !env.verify_solution_against_instance (some inst) generator_solution instance_size true then
      (none, none)
    else (some (env.postprocess_instance inst instance_size), some generator_solution)

/-- Embeds `Match._run_solver`: run the solver on the encoded instance, parse its
output and verify solution semantics, then the solution against the
instance, returning `None` on the first failure. -/
def run_solver (env : FightEnv R I S) (instance_size : Nat) (inst : Option I) : Option S :=
  match env.solver_encoded_output inst with
  | none => none
  | some encoded_output =>
    let raw_solver_solution := env.decode encoded_output
    let solver_solution := env.parse_solution raw_solver_solution instance_size
    if !env.verify_semantics_of_solution solver_solution instance_size true then none
    else if !env.verify_solution_against_instance inst solver_solution instance_size false then none
    else some solver_solution

/-- Embeds `Match._one_fight`: run the generator; if `not instance and not
generator_solution` the fight scores 1.0; otherwise run the solver; if
`not solver_solution` the fight scores 0.0; otherwise the verifier's
approximation ratio of the four values is returned (unclamped). -/
def one_fight (env : FightEnv R I S) (instance_size : Nat) : ℚ :=
  let r := run_generator env instance_size
  if pyNot env.falsyInstance r.1 && pyNot env.falsySolution r.2 then 1
  else
    let solver_solution := run_solver env instance_size r.1
    if pyNot env.falsySolution solver_solution then 0
    else env.approximation_ratio_fn r.1 instance_size r.2 solver_solution

/-- The generator failed at one of the steps of `Match._run_generator`:
no (or empty) output, a malformed instance, a malformed certificate, or a
certificate that is wrong for its instance. -/
def generatorFails (env : FightEnv R I S) (instance_size : Nat) : Prop :=
  env.gen_encoded_output = none ∨
  ∃ out, env.gen_encoded_output = some out ∧
    (let p := env.split_into_instance_and_solution (env.decode out)
     let inst := env.parse_instance p.1 instance_size
     let generator_solution := env.parse_solution p.2 instance_size
     env.verify_semantics_of_instance inst instance_size = false ∨
     env.verify_semantics_of_solution generator_solution instance_size true = false ∨
     env.verify_solution_against_instance (some inst) generator_solution instance_size true = false)

/-- Replace the solver program's behaviour, leaving the rest of the fight
environment unchanged. -/
def setSolver (env : FightEnv R I S) (f : Option I → Option R) : FightEnv R I S :=
  { env with solver_encoded_output := f }

theorem run_generator_fails (env : FightEnv R I S) (instance_size : Nat)
    (h : generatorFails env instance_size) :
    run_generator env instance_size = (none, none) := by
  rcases h with h | ⟨out, hout, h⟩
  · simp [run_generator, h]
  · simp only [run_generator, hout]
    rcases h with h | h | h <;> simp [h]

theorem run_generator_setSolver (env : FightEnv R I S) (f : Option I → Option R)
    (instance_size : Nat) :
    run_generator (setSolver env f) instance_size = run_generator env instance_size := by
  simp [run_generator, setSolver]

/-- C1: if the generator fails at any step (no output, decode failure folded
into the no-output case, malformed instance, malformed certificate, or a
wrong certificate), the fight returns score exactly 1.0, and it does so for
every possible solver behaviour — i.e. the solver is never executed. -/
theorem generator_failure_scores_one (env : FightEnv R I S) (instance_size : Nat)
    (h : generatorFails env instance_size) :
    run_generator env instance_size = (none, none) ∧
    ∀ f : Option I → Option R, one_fight (setSolver env f) instance_size = 1 := by
  have hg := run_generator_fails env instance_size h
  refine ⟨hg, fun f => ?_⟩
  have hgf : run_generator (setSolver env f) instance_size = (none, none) :=
    (run_generator_setSolver env f instance_size).trans hg
  simp [one_fight, hgf, pyNot]

/-- A concrete fight environment over trivial types in which the generator
produces no output. -/
def noOutputEnv : FightEnv Unit Unit Unit where
  falsyInstance := fun _ => false
  falsySolution := fun _ => false
  gen_encoded_output := none
  solver_encoded_output := fun _ => some ()
  decode := id
  split_into_instance_and_solution := fun r => (r, r)
  parse_instance := fun _ _ => ()
  parse_solution := fun _ _ => ()
  postprocess_instance := fun i _ => i
  verify_semantics_of_instance := fun _ _ => true
  verify_semantics_of_solution := fun _ _ _ => true
  verify_solution_against_instance := fun _ _ _ _ => true
  approximation_ratio_fn := fun _ _ _ _ => 2

theorem generator_failure_scores_one_witness :
    one_fight (setSolver noOutputEnv (fun _ => some ())) 1 = 1 :=
  (generator_failure_scores_one noOutputEnv 1 (Or.inl rfl)).2 (fun _ => some ())

/-- Replace the three verifier callbacks of a fight environment. -/
def setCheckers (env : FightEnv R I S) (vi : I → Nat → Bool)
    (vs : S → Nat → Bool → Bool) (va : Option I → S → Nat → Bool → Bool) : FightEnv R I S :=
  { env with verify_semantics_of_instance := vi, verify_semantics_of_solution := vs,
             verify_solution_against_instance := va }

/-- The instance parsed from the generator's decoded output (match.py line
`instance = self.problem.parser.parse_instance(raw_instance, instance_size)`). -/
def parsedInstance (env : FightEnv R I S) (out : R) (instance_size : Nat) : I :=
  env.parse_instance (env.split_into_instance_and_solution (env.decode out)).1 instance_size

/-- The certificate solution parsed from the generator's decoded output. -/
def parsedCertificate (env : FightEnv R I S) (out : R) (instance_size : Nat) : S :=
  env.parse_solution (env.split_into_instance_and_solution (env.decode out)).2 instance_size

/-- C8: the generator-output validation pipeline checks instance
well-formedness, then certificate well-formedness, then certificate
correctness against the instance, in that fixed order, short-circuiting on
the first failing check: when an earlier check fails the result is the
generator-failure value `(None, None)` for every possible behaviour of the
later checks (so they are not evaluated), and when all three pass the
parsed pair is returned. -/
theorem generator_checks_ordered (env : FightEnv R I S) (instance_size : Nat) (out : R)
    (hout : env.gen_encoded_output = some out)
    (vi : I → Nat → Bool) (vs : S → Nat → Bool → Bool)
    (va : Option I → S → Nat → Bool → Bool) :
    (vi (parsedInstance env out instance_size) instance_size = false →
      ∀ vs' va', run_generator (setCheckers env vi vs' va') instance_size = (none, none)) ∧
    (vi (parsedInstance env out instance_size) instance_size = true →
      vs (parsedCertificate env out instance_size) instance_size true = false →
      ∀ va', run_generator (setCheckers env vi vs va') instance_size = (none, none)) ∧
    (vi (parsedInstance env out instance_size) instance_size = true →
      vs (parsedCertificate env out instance_size) instance_size true = true →
      va (some (parsedInstance env out instance_size)) (parsedCertificate env out instance_size)
          instance_size true = false →
      run_generator (setCheckers env vi vs va) instance_size = (none, none)) ∧
    (vi (parsedInstance env out instance_size) instance_size = true →
      vs (parsedCertificate env out instance_size) instance_size true = true →
      va (some (parsedInstance env out instance_size)) (parsedCertificate env out instance_size)
          instance_size true = true →
      run_generator (setCheckers env vi vs va) instance_size
        = (some (env.postprocess_instance (parsedInstance env out instance_size) instance_size),
           some (parsedCertificate env out instance_size))) := by
  simp only [parsedInstance, parsedCertificate]
  refine ⟨fun h1 vs' va' => ?_, fun h1 h2 va' => ?_, fun h1 h2 h3 => ?_, fun h1 h2 h3 => ?_⟩
  · simp [run_generator, setCheckers, hout, h1]
  · simp [run_generator, setCheckers, hout, h1, h2]
  · simp [run_generator, setCheckers, hout, h1, h2, h3]
  · simp [run_generator, setCheckers, hout, h1, h2, h3]

/-- A concrete fight environment over trivial types in which the generator
produces output, every check passes, and the plugin scoring function
returns the approximation ratio 2. -/
def ratioTwoEnv : FightEnv Unit Unit Unit where
  falsyInstance := fun _ => false
  falsySolution := fun _ => false
  gen_encoded_output := some ()
  solver_encoded_output := fun _ => some ()
  decode := id
  split_into_instance_and_solution := fun r => (r, r)
  parse_instance := fun _ _ => ()
  parse_solution := fun _ _ => ()
  postprocess_instance := fun i _ => i
  verify_semantics_of_instance := fun _ _ => true
  verify_semantics_of_solution := fun _ _ _ => true
  verify_solution_against_instance := fun _ _ _ _ => true
  approximation_ratio_fn := fun _ _ _ _ => 2

theorem generator_checks_ordered_witness :
    run_generator
      (setCheckers ratioTwoEnv (fun _ _ => false) (fun _ _ _ => true) (fun _ _ _ _ => true)) 1
      = (none, none) :=
  (generator_checks_ordered ratioTwoEnv 1 () rfl (fun _ _ => false) (fun _ _ _ => true)
    (fun _ _ _ _ => true)).1 rfl (fun _ _ _ => true) (fun _ _ _ _ => true)

/-! ## Default scoring function (algobattle/problem.py, `default_score`)

A Python `Solution` object is represented by the value its `score` method
returns on the relevant instance and role; `isnan` has no counterpart on
`ℚ` and the assertion and RuntimeError paths are modelled as errors. -/

/-- A solution object, represented by the value of `solution.score(instance, role)`. -/
structure SolutionObj where
  scoreVal : ℚ

/-- Embeds `default_score` from problem.py: with a generator and a solver
solution it checks both scores are nonnegative, then returns the clamped
quotient, where a zero generator score yields `float(sol_score < 0)`
(the Python `try/except ZeroDivisionError` branch); with a single solution
it returns that solution's clamped score. -/
def default_score (solution generator_solution solver_solution : Option SolutionObj) :
    Except Unit ℚ :=
  match solution with
  | none =>
    match generator_solution, solver_solution with
    | some g, some s =>
      if g.scoreVal < 0 then .error ()
      else if s.scoreVal < 0 then .error ()
      else if g.scoreVal = 0 then .ok (if s.scoreVal < 0 then 1 else 0)
      else .ok (max 0 (min 1 (s.scoreVal / g.scoreVal)))
    | _, _ => .error ()
  | some sol => .ok (max 0 (min 1 sol.scoreVal))

/-- C3 counterexample: a fight in which the generator produced a valid
instance and the solver produced a valid, correct solution, but the fight
returns the plugin's approximation ratio 2 unclamped — outside `[0, 1]`
(the clamp to `[0, 1]` happens only inside `default_score`, not in
`Match._one_fight`, whose own docstring advertises values `>= 1`). -/
theorem one_fight_unclamped_counterexample :
    one_fight ratioTwoEnv 1 = 2 ∧ ¬(one_fight ratioTwoEnv 1 ≤ 1) := by
  constructor
  · rfl
  · decide

/-- C3 (amended): in a fight where the generator-failure branch is not
taken, a solver failure (no output, malformed solution, falsy solution, or
a solution wrong for the instance — all the cases in which
`Match._run_solver` yields a falsy value) scores exactly 0.0; otherwise the
fight returns the problem's scoring function applied to instance and
solutions, unclamped; the default scoring function `default_score` itself
always yields a value in `[0, 1]`. -/
theorem solver_failure_scores_zero (env : FightEnv R I S) (instance_size : Nat)
    (hgen : (pyNot env.falsyInstance (run_generator env instance_size).1
      && pyNot env.falsySolution (run_generator env instance_size).2) = false) :
    (pyNot env.falsySolution (run_solver env instance_size (run_generator env instance_size).1)
        = true →
      one_fight env instance_size = 0) ∧
    (pyNot env.falsySolution (run_solver env instance_size (run_generator env instance_size).1)
        = false →
      one_fight env instance_size
        = env.approximation_ratio_fn (run_generator env instance_size).1 instance_size
            (run_generator env instance_size).2
            (run_solver env instance_size (run_generator env instance_size).1)) ∧
    (∀ g s q, default_score none (some g) (some s) = .ok q → 0 ≤ q ∧ q ≤ 1) ∧
    (∀ sol q, default_score (some sol) none none = .ok q → 0 ≤ q ∧ q ≤ 1) := by
  refine ⟨fun hsol => ?_, fun hsol => ?_, fun g s q hq => ?_, fun sol q hq => ?_⟩
  · simp only [one_fight]
    rw [hgen]
    simp [hsol]
  · simp only [one_fight]
    rw [hgen]
    simp [hsol]
  · simp only [default_score] at hq
    split_ifs at hq with h1 h2 h3 <;> first
      | exact Except.noConfusion hq
      | (have h0 := Except.ok.inj hq; subst h0; norm_num)
  · simp only [default_score] at hq
    have h0 := Except.ok.inj hq
    subst h0
    exact ⟨le_max_left 0 _, max_le (by norm_num) (min_le_left 1 _)⟩

theorem solver_failure_scores_zero_witness :
    one_fight ratioTwoEnv 1
      = ratioTwoEnv.approximation_ratio_fn (run_generator ratioTwoEnv 1).1 1
          (run_generator ratioTwoEnv 1).2 (run_solver ratioTwoEnv 1 (run_generator ratioTwoEnv 1).1) :=
  (solver_failure_scores_zero ratioTwoEnv 1 rfl).2.1 rfl

/-! ## Point allocation (battle_wrappers/iterated.py, battle_wrappers/averaged.py)

The battle wrapper modules are not among the sources — only their tests
(src/tests/test_match.py, src/tests/test_battle_wrappers.py) and callers
are.  Their `calculate_points` methods are therefore modelled from the
spec (section 4.4) and validated against the concrete expectations of the
tests.  Per-team aggregate scores are taken as a list of rationals in the
fixed, deterministic team ordering. -/

/-- Modelled from the spec: rounding a point value down to one decimal
place, used for every team but the last (battle wrapper `calculate_points`
is missing from the sources). -/
def roundDown1 (q : ℚ) : ℚ := (⌊q * 10⌋ : ℤ) / 10

/-- Modelled from the spec: report final values to one decimal place and
make the sum exact by rounding all but one team down to one decimal and
assigning the remainder to the last team in the fixed team ordering. -/
def distributeWithRounding (P : ℚ) : List ℚ → List ℚ
  | [] => []
  | raw => raw.dropLast.map roundDown1 ++ [P - (raw.dropLast.map roundDown1).sum]

/-- Modelled from the spec: Iterated point allocation before rounding.
Each entry of `scores` is one team's sum, over all rounds and matchups
where it was the solver, of the round's solved size.  If the sum of all
teams' scores is 0, the budget is split evenly; otherwise each team gets
`P * score / total`. -/
def iteratedRawPoints (P : ℚ) (scores : List ℚ) : List ℚ :=
  if scores.sum = 0 then scores.map (fun _ => P / scores.length)
  else scores.map (fun s => P * s / scores.sum)

/-- Modelled from the spec: a team's Averaged weight is the reciprocal of
its ratio, and a team with ratio 0 is treated as having weight 0, not an
undefined (infinite) weight. -/
def averagedWeight (ratio : ℚ) : ℚ := if ratio = 0 then 0 else 1 / ratio

/-- Modelled from the spec: Averaged point allocation before rounding.
If every team's ratio is 0 the budget is split evenly; otherwise each team
gets `P * weight / (sum of weights)`. -/
def averagedRawPoints (P : ℚ) (ratios : List ℚ) : List ℚ :=
  if ratios.all (fun r => r == 0) then ratios.map (fun _ => P / ratios.length)
  else
    let weights := ratios.map averagedWeight
    weights.map (fun w => P * w / weights.sum)

/-- Modelled from the spec: Iterated `calculate_points`.  With `rounds = 0`
every team gets 0 points (pinned by test_match.py,
`test_calculate_points_zero_rounds`); otherwise the raw proportional
allocation is reported with the one-decimal rounding rule. -/
def iterated_calculate_points (rounds : ℕ) (P : ℚ) (scores : List ℚ) : List ℚ :=
  if rounds = 0 then scores.map (fun _ => 0)
  else distributeWithRounding P (iteratedRawPoints P scores)

/-- Modelled from the spec: Averaged `calculate_points`, analogous to the
Iterated one. -/
def averaged_calculate_points (rounds : ℕ) (P : ℚ) (ratios : List ℚ) : List ℚ :=
  if rounds = 0 then ratios.map (fun _ => 0)
  else distributeWithRounding P (averagedRawPoints P ratios)

theorem distributeWithRounding_sum (P : ℚ) (raw : List ℚ) (h : raw ≠ []) :
    (distributeWithRounding P raw).sum = P := by
  cases raw with
  | nil => exact absurd rfl h
  | cons x xs =>
    simp [distributeWithRounding]

theorem sum_map_div (P T : ℚ) (l : List ℚ) :
    (l.map (fun s => P * s / T)).sum = P * l.sum / T := by
  induction l with
  | nil => simp
  | cons x xs ih =>
    simp only [List.map_cons, List.sum_cons, ih]
    ring

theorem sum_map_const (c : ℚ) (l : List α) :
    (l.map (fun _ => c)).sum = l.length * c := by
  induction l with
  | nil => simp
  | cons x xs ih =>
    simp only [List.map_cons, List.sum_cons, ih, List.length_cons]
    push_cast
    ring

theorem sum_pos_of_mem {l : List ℚ} (hnn : ∀ x ∈ l, 0 ≤ x) {a : ℚ}
    (ha : a ∈ l) (hp : 0 < a) : 0 < l.sum := by
  induction l with
  | nil => cases ha
  | cons x xs ih =>
    have hxs : 0 ≤ xs.sum := List.sum_nonneg fun y hy => hnn y (List.mem_cons_of_mem _ hy)
    have hx : 0 ≤ x := hnn x (List.mem_cons_self x xs)
    rcases List.mem_cons.mp ha with rfl | ha
    · simp only [List.sum_cons]
      linarith
    · have := ih (fun y hy => hnn y (List.mem_cons_of_mem _ hy)) ha
      simp only [List.sum_cons]
      linarith

theorem iteratedRawPoints_sum (P : ℚ) (scores : List ℚ) (h : scores ≠ []) :
    (iteratedRawPoints P scores).sum = P := by
  have hlen : (scores.length : ℚ) ≠ 0 := by
    exact_mod_cast (List.length_pos_of_ne_nil h).ne'
  unfold iteratedRawPoints
  by_cases hs : scores.sum = 0
  · rw [if_pos hs, sum_map_const]
    field_simp
  · rw [if_neg hs, sum_map_div]
    field_simp

theorem averagedRawPoints_sum (P : ℚ) (ratios : List ℚ) (h : ratios ≠ [])
    (hnn : ∀ x ∈ ratios, 0 ≤ x) :
    (averagedRawPoints P ratios).sum = P := by
  have hlen : (ratios.length : ℚ) ≠ 0 := by
    exact_mod_cast (List.length_pos_of_ne_nil h).ne'
  unfold averagedRawPoints
  by_cases hall : ratios.all (fun r => r == 0)
  · rw [if_pos hall, sum_map_const]
    field_simp
  · rw [if_neg hall]
    have hwnn : ∀ w ∈ ratios.map averagedWeight, 0 ≤ w := by
      intro w hw
      rcases List.mem_map.mp hw with ⟨r, hr, rfl⟩
      unfold averagedWeight
      split_ifs with h0
      · exact le_refl 0
      · have : 0 < r := lt_of_le_of_ne (hnn r hr) (Ne.symm h0)
        positivity
    have hex : ∃ r ∈ ratios, r ≠ 0 := by
      by_contra hc
      push_neg at hc
      exact hall (List.all_eq_true.mpr fun r hr => beq_iff_eq.mpr (hc r hr))
    rcases hex with ⟨r, hr, hr0⟩
    have hrpos : 0 < r := lt_of_le_of_ne (hnn r hr) (Ne.symm hr0)
    have hwpos : 0 < averagedWeight r := by
      unfold averagedWeight
      rw [if_neg hr0]
      positivity
    have hsum : 0 < (ratios.map averagedWeight).sum :=
      sum_pos_of_mem hwnn (List.mem_map_of_mem averagedWeight hr) hwpos
    rw [sum_map_div]
    field_simp

/-- C2 counterexample: a completed match with `rounds = 0` (the tests run
such a match and expect zero points for everyone) gives every team 0
points, so with budget 100 the points do not sum to the budget. -/
theorem calculate_points_zero_rounds_counterexample :
    iterated_calculate_points 0 100 [0, 0] = [0, 0] ∧
    (iterated_calculate_points 0 100 [0, 0]).sum ≠ 100 := by
  constructor <;> norm_num [iterated_calculate_points]

/-- C2 (amended): for every completed match with at least one round, a
nonnegative budget `P` and nonnegative per-team aggregates, the points
returned by `calculate_points` (Iterated and Averaged) sum to exactly `P`;
if every team's aggregate is 0, the pre-rounding allocation splits the
budget evenly across teams; and the Averaged weight of ratio 0 is 0.
With `rounds = 0` every team instead receives 0 points. -/
theorem calculate_points_sum (rounds : ℕ) (P : ℚ) (scores ratios : List ℚ)
    (hrounds : rounds ≠ 0)
    (hscores : scores ≠ []) (hratios : ratios ≠ [])
    (hs : ∀ x ∈ scores, 0 ≤ x) (hr : ∀ x ∈ ratios, 0 ≤ x) :
    (iterated_calculate_points rounds P scores).sum = P ∧
    (averaged_calculate_points rounds P ratios).sum = P ∧
    (iteratedRawPoints P scores).sum = P ∧
    (averagedRawPoints P ratios).sum = P ∧
    (scores.sum = 0 → iteratedRawPoints P scores = scores.map (fun _ => P / scores.length)) ∧
    averagedWeight 0 = 0 := by
  have hiter : iteratedRawPoints P scores ≠ [] := by
    unfold iteratedRawPoints
    split_ifs <;> simpa using hscores
  have havg : averagedRawPoints P ratios ≠ [] := by
    unfold averagedRawPoints
    split_ifs <;> simpa using hratios
  refine ⟨?_, ?_, iteratedRawPoints_sum P scores hscores,
    averagedRawPoints_sum P ratios hratios hr, fun h0 => ?_, by simp [averagedWeight]⟩
  · rw [iterated_calculate_points, if_neg hrounds, distributeWithRounding_sum _ _ hiter]
  · rw [averaged_calculate_points, if_neg hrounds, distributeWithRounding_sum _ _ havg]
  · rw [iteratedRawPoints, if_pos h0]

theorem calculate_points_sum_witness :
    (iterated_calculate_points 2 100 [40, 20]).sum = 100 :=
  (calculate_points_sum 2 100 [40, 20] [3/2, 1] (by decide) (by decide) (by decide)
    (by norm_num) (by norm_num)).1

/-- Validation of the spec-modelled point allocation against
test_match.py `test_calculate_points_iterated_one_team_better`: solver
aggregates 40 and 20 with budget 100 yield 66.6 and 33.4. -/
theorem iterated_points_match_test :
    iterated_calculate_points 2 100 [40, 20] = [66.6, 33.4] := by
  have hraw : iteratedRawPoints 100 [40, 20] = [200/3, 100/3] := by
    norm_num [iteratedRawPoints]
  have hfl : (⌊(200/3 : ℚ) * 10⌋ : ℤ) = 666 := by
    rw [Int.floor_eq_iff]
    norm_num
  norm_num [iterated_calculate_points, hraw, distributeWithRounding, roundDown1, hfl,
    List.dropLast]

/-- Validation of the spec-modelled Averaged allocation against
test_match.py `test_calculate_points_averaged_one_team_better`: solver
ratio means 1 and 3/2 with budget 100 yield 60 and 40 points. -/
theorem averaged_points_match_test :
    averaged_calculate_points 2 100 [1, 3/2] = [60, 40] := by
  have hraw : averagedRawPoints 100 [1, 3/2] = [60, 40] := by
    norm_num [averagedRawPoints, averagedWeight]
  have hfl : (⌊(60 : ℚ) * 10⌋ : ℤ) = 600 := by
    rw [Int.floor_eq_iff]
    norm_num
  norm_num [averaged_calculate_points, hraw, distributeWithRounding, roundDown1, hfl,
    List.dropLast]

/-! ## Iterated battle algorithm (battle_wrappers/iterated.py)

The module is not among the sources; the adaptive search is modelled from
the spec (section 4.3).  A fight is abstracted into the oracle `solves`,
telling for each instance size whether the fight at that size succeeded.
On success the step is multiplied by the exponent and the probed size
advances by the step, clamped to the cap so that the cap itself is the
last size probed (the spec's terminal clause: if the solver never fails up
to the cap, the round result is the cap itself). -/

/-- Modelled from the spec: phase 2 bisection on `(low, high)`: repeatedly
fight at `mid = low + (high - low) / 2` (integer division), moving `low`
up on success and `high` down on failure, stopping when `high - low ≤ 1`;
the result is `low`. -/
def bisect (solves : ℕ → Bool) (low high : ℕ) : ℕ :=
  if high - low ≤ 1 then low
  else
    let mid := low + (high - low) / 2
    if solves mid then bisect solves mid high else bisect solves low mid
termination_by high - low
decreasing_by
  · omega
  · omega

/-- Modelled from the spec: phase 1 expansion with explicit fuel (every
successful fight strictly increases the probed size, which stays at most
the cap, so `cap + 1` fights always suffice).  State is
`(size, step, last_solved)`: while `size ≤ cap`, fight at `size`; on
success set `last_solved = size`, multiply the step by the exponent and
advance the size by the step (clamped to the cap); on failure enter
bisection on `(last_solved, size)`. -/
def expand (solves : ℕ → Bool) (cap exponent : ℕ) : ℕ → ℕ → ℕ → ℕ → ℕ
  | 0, _, _, last_solved => last_solved
  | fuel + 1, size, step, last_solved =>
    if cap < size then last_solved
    else if solves size then
      if cap ≤ size then size
      else expand solves cap exponent fuel (min (size + step * exponent) cap) (step * exponent) size
    else bisect solves last_solved size

/-- Modelled from the spec: one Iterated round, starting from
`size = minimal_size`, `step = 1`, `last_solved = 0`. -/
def iterated_round (solves : ℕ → Bool) (minimal_size cap exponent : ℕ) : ℕ :=
  expand solves cap exponent (cap + 1) minimal_size 1 0

theorem bisect_all_false (solves : ℕ → Bool) (hf : ∀ n, solves n = false) :
    ∀ d low high, high - low ≤ d → bisect solves low high = low := by
  intro d
  induction d with
  | zero =>
    intro low high h
    rw [bisect]
    simp [show high - low ≤ 1 by omega]
  | succ n ih =>
    intro low high h
    rw [bisect]
    by_cases h1 : high - low ≤ 1
    · simp [h1]
    · simp only [h1, if_false, hf, Bool.false_eq_true]
      exact ih low (low + (high - low) / 2) (by omega)

theorem expand_all_true (solves : ℕ → Bool) (cap exponent : ℕ)
    (ht : ∀ n, solves n = true) (hexp : 1 ≤ exponent) :
    ∀ fuel size step last_solved, 1 ≤ step → size ≤ cap → cap + 1 - size ≤ fuel →
      expand solves cap exponent fuel size step last_solved = cap := by
  intro fuel
  induction fuel with
  | zero =>
    intro size step last_solved h1 h2 h3
    omega
  | succ n ih =>
    intro size step last_solved h1 h2 h3
    simp only [expand]
    rw [if_neg (by omega), ht size]
    simp only [if_true]
    by_cases hc : cap ≤ size
    · rw [if_pos hc]
      omega
    · rw [if_neg hc]
      have hstep : 1 ≤ step * exponent := Nat.mul_pos h1 hexp
      exact ih (min (size + step * exponent) cap) (step * exponent) size hstep
        (Nat.min_le_right _ _) (by omega)

/-- C4: for an Iterated battle round with minimal size, cap and exponent
fixed, if the solver fails every fight at every probed instance size, the
round result is 0; and if the solver succeeds at every fight up to the
cap (and the exponent is at least 1, so the probed size grows), the round
result equals the cap exactly. -/
theorem iterated_round_boundary (minimal_size cap exponent : ℕ) (solves : ℕ → Bool) :
    ((∀ n, solves n = false) → iterated_round solves minimal_size cap exponent = 0) ∧
    ((∀ n, solves n = true) → 1 ≤ exponent → minimal_size ≤ cap →
      iterated_round solves minimal_size cap exponent = cap) := by
  constructor
  · intro hf
    unfold iterated_round
    simp only [expand]
    by_cases h : cap < minimal_size
    · rw [if_pos h]
    · rw [if_neg h, hf minimal_size]
      simp only [Bool.false_eq_true, if_false]
      exact bisect_all_false solves hf minimal_size 0 minimal_size (by omega)
  · intro ht hexp hmin
    exact expand_all_true solves cap exponent ht hexp (cap + 1) minimal_size 1 0
      (le_refl 1) hmin (by omega)

theorem iterated_round_boundary_witness :
    iterated_round (fun _ => false) 5 50000 2 = 0 :=
  (iterated_round_boundary 5 50000 2 (fun _ => false)).1 (fun _ => rfl)

/-! ## Matchups (algobattle/team.py, `TeamHandler.matchups`)

Teams are abstracted into an arbitrary type; the active team list is the
`TeamHandler.active` list. -/

/-- A matchup: the ordered pair of a generating and a solving team
(team.py, `Matchup`). -/
structure Matchup (α : Type) where
  generator : α
  solver : α
deriving DecidableEq

/-- Embeds `itertools.combinations(self.active, 2)`: all 2-combinations of list
elements, in list order. -/
def pairCombinations : List α → List (α × α)
  | [] => []
  | x :: xs => xs.map (fun y => (x, y)) ++ pairCombinations xs

/-- Embeds `TeamHandler.grouped_matchups`: for every 2-combination of active
teams, the matchup with the first team generating together with the
reversed matchup. -/
def grouped_matchups (active : List α) : List (Matchup α × Matchup α) :=
  (pairCombinations active).map (fun g => (⟨g.1, g.2⟩, ⟨g.2, g.1⟩))

/-- Embeds `TeamHandler.matchups`: the self-matchup when exactly one team is
active, otherwise both matchups of every group. -/
def matchups (active : List α) : List (Matchup α) :=
  match active with
  | [t] => [⟨t, t⟩]
  | _ => (grouped_matchups active).flatMap (fun p => [p.1, p.2])

theorem mem_pairCombinations_of (a b : α) :
    ∀ l : List α, a ∈ l → b ∈ l → a ≠ b →
      (a, b) ∈ pairCombinations l ∨ (b, a) ∈ pairCombinations l := by
  intro l
  induction l with
  | nil => intro ha; cases ha
  | cons x xs ih =>
    intro ha hb hab
    rcases List.mem_cons.mp ha with rfl | ha2
    · have hb' : b ∈ xs := by
        rcases List.mem_cons.mp hb with rfl | hb'
        · exact absurd rfl hab
        · exact hb'
      exact Or.inl (List.mem_append_left _ (List.mem_map_of_mem _ hb'))
    · rcases List.mem_cons.mp hb with rfl | hb2
      · exact Or.inr (List.mem_append_left _ (List.mem_map_of_mem _ ha2))
      · rcases ih ha2 hb2 hab with h | h
        · exact Or.inl (List.mem_append_right _ h)
        · exact Or.inr (List.mem_append_right _ h)

theorem pairCombinations_mem_sub :
    ∀ l : List α, ∀ p ∈ pairCombinations l, p.1 ∈ l ∧ p.2 ∈ l := by
  intro l
  induction l with
  | nil => intro p hp; cases hp
  | cons x xs ih =>
    intro p hp
    rcases List.mem_append.mp hp with hp | hp
    · rcases List.mem_map.mp hp with ⟨y, hy, rfl⟩
      exact ⟨List.mem_cons_self x xs, List.mem_cons_of_mem _ hy⟩
    · rcases ih p hp with ⟨h1, h2⟩
      exact ⟨List.mem_cons_of_mem _ h1, List.mem_cons_of_mem _ h2⟩

theorem pairCombinations_ne :
    ∀ l : List α, l.Nodup → ∀ p ∈ pairCombinations l, p.1 ≠ p.2 := by
  intro l
  induction l with
  | nil => intro _ p hp; cases hp
  | cons x xs ih =>
    intro hnd p hp
    rcases List.mem_append.mp hp with hp | hp
    · rcases List.mem_map.mp hp with ⟨y, hy, rfl⟩
      intro he
      change x = y at he
      exact (List.nodup_cons.mp hnd).1 (by rw [he]; exact hy)
    · exact ih (List.nodup_cons.mp hnd).2 p hp

theorem pairCombinations_length (l : List α) :
    2 * (pairCombinations l).length = l.length * (l.length - 1) := by
  induction l with
  | nil => rfl
  | cons x xs ih =>
    simp only [pairCombinations, List.length_append, List.length_map, List.length_cons]
    cases hn : xs.length with
    | zero =>
      rw [hn] at ih
      omega
    | succ m =>
      rw [hn] at ih
      simp only [Nat.succ_sub_one] at ih ⊢
      have h1 : (m + 1 + 1) * (m + 1) = m * m + 3 * m + 2 := by ring
      have h2 : (m + 1) * m = m * m + m := by ring
      rw [h2] at ih
      rw [h1]
      omega

theorem matchups_eq_flatMap (active : List α) (h : active.length ≠ 1) :
    matchups active = (grouped_matchups active).flatMap (fun p => [p.1, p.2]) := by
  cases active with
  | nil => rfl
  | cons a t =>
    cases t with
    | nil => exact absurd rfl h
    | cons b t2 => rfl

theorem mem_matchups_of_mem_pc {a b : α} {l : List α} (h : (a, b) ∈ pairCombinations l) :
    (⟨a, b⟩ : Matchup α) ∈ (grouped_matchups l).flatMap (fun p => [p.1, p.2]) ∧
    (⟨b, a⟩ : Matchup α) ∈ (grouped_matchups l).flatMap (fun p => [p.1, p.2]) := by
  constructor <;>
  · simp only [grouped_matchups, List.mem_flatMap, List.mem_map]
    exact ⟨(⟨a, b⟩, ⟨b, a⟩), ⟨(a, b), h, rfl⟩, by simp⟩

theorem length_flatMap_pair (l : List (β × β)) :
    (l.flatMap (fun p => [p.1, p.2])).length = 2 * l.length := by
  induction l with
  | nil => rfl
  | cons x xs ih =>
    simp only [List.flatMap_cons, List.length_append, List.length_cons, ih, List.length_nil]
    omega

/-- C5: the matchup list is exactly the single self-matchup when exactly
one team is active; otherwise it contains every ordered pair of distinct
active teams, contains only such pairs (generator and solver active and
distinct — no self-pairs), and for `n ≥ 2` active teams it has exactly
`n * (n - 1)` entries. -/
theorem matchups_spec (active : List α) (hnd : active.Nodup) :
    (∀ t, active = [t] → matchups active = [⟨t, t⟩]) ∧
    (∀ a b, a ∈ active → b ∈ active → a ≠ b → (⟨a, b⟩ : Matchup α) ∈ matchups active) ∧
    (active.length ≠ 1 →
      ∀ m ∈ matchups active, m.generator ∈ active ∧ m.solver ∈ active ∧
        m.generator ≠ m.solver) ∧
    (2 ≤ active.length → (matchups active).length = active.length * (active.length - 1)) := by
  refine ⟨fun t ht => by rw [ht]; rfl, fun a b ha hb hab => ?_, fun hlen m hm => ?_,
    fun hlen => ?_⟩
  · by_cases h1 : active.length = 1
    · rcases List.length_eq_one.mp h1 with ⟨t, rfl⟩
      have ha' := List.mem_singleton.mp ha
      have hb' := List.mem_singleton.mp hb
      exact absurd (ha'.trans hb'.symm) hab
    · rw [matchups_eq_flatMap active h1]
      rcases mem_pairCombinations_of a b active ha hb hab with h | h
      · exact (mem_matchups_of_mem_pc h).1
      · exact (mem_matchups_of_mem_pc h).2
  · rw [matchups_eq_flatMap active hlen] at hm
    simp only [grouped_matchups, List.mem_flatMap, List.mem_map] at hm
    rcases hm with ⟨pair, ⟨g, hg, rfl⟩, hm⟩
    have hsub := pairCombinations_mem_sub active g hg
    have hne := pairCombinations_ne active hnd g hg
    simp only [List.mem_cons, List.not_mem_nil, or_false] at hm
    rcases hm with rfl | rfl
    · exact ⟨hsub.1, hsub.2, hne⟩
    · exact ⟨hsub.2, hsub.1, Ne.symm hne⟩
  · rw [matchups_eq_flatMap active (by omega), length_flatMap_pair]
    have : (grouped_matchups active).length = (pairCombinations active).length := by
      simp [grouped_matchups]
    rw [this, pairCombinations_length]

theorem matchups_spec_witness :
    (⟨1, 2⟩ : Matchup ℕ) ∈ matchups [1, 2, 3] ∧ (matchups [1, 2, 3]).length = 3 * 2 :=
  ⟨(matchups_spec [1, 2, 3] (by decide)).2.1 1 2 (by decide) (by decide) (by decide),
   (matchups_spec [1, 2, 3] (by decide)).2.2.2 (by decide)⟩

/-! ## Team build (algobattle/team.py `TeamHandler.build` / `TeamInfo.build`,
algobattle/match.py `Match._build`)

A team specification is abstracted into its normalized name; whether its
generator and solver docker builds succeed (no timeout, no nonzero exit)
is the oracle `buildSucceeds`.  `TeamInfo.build` raises `ValueError` on a
name already in the process-wide `_team_names` registry, which gains a
name only when a team is fully built; `TeamHandler.build` catches the
failure, records the team as excluded and continues with the remaining
teams. -/

/-- Embeds `TeamHandler.build`: iterate over team infos, threading the
`_team_names` registry; each team either builds (appended to the active
teams and registered) or is appended to the excluded teams.  The safe and
non-safe branches of team.py select active and excluded identically; the
archive/restore mechanics of the safe branch are modelled separately
below. -/
def buildTeams [DecidableEq α] (buildSucceeds : α → Bool) :
    List α → List α → List α × List α
  | [], _ => ([], [])
  | info :: rest, reg =>
    if info ∈ reg ∨ buildSucceeds info = false then
      let r := buildTeams buildSucceeds rest reg
      (r.1, info :: r.2)
    else
      let r := buildTeams buildSucceeds rest (info :: reg)
      (info :: r.1, r.2)

/-- Embeds the `TeamHandler.build` entry point: the `_team_names` registry starts
empty. -/
def teamHandlerBuild [DecidableEq α] (buildSucceeds : α → Bool) (infos : List α) :
    List α × List α :=
  buildTeams buildSucceeds infos []

/-- Embeds `Match._build`'s fatal rule: when no team's containers built
successfully, `BuildError` is raised; otherwise the build succeeds. -/
def buildFatalCheck (active : List α) : Except Unit (List α) :=
  if active.isEmpty then Except.error () else Except.ok active

theorem buildTeams_perm [DecidableEq α] (buildSucceeds : α → Bool) :
    ∀ infos reg : List α,
      ((buildTeams buildSucceeds infos reg).1 ++ (buildTeams buildSucceeds infos reg).2).Perm
        infos := by
  intro infos
  induction infos with
  | nil => intro reg; simp [buildTeams]
  | cons info rest ih =>
    intro reg
    simp only [buildTeams]
    split_ifs with h
    · exact (List.perm_middle).trans ((ih reg).cons info)
    · exact ((ih (info :: reg)).cons info)

theorem buildTeams_active_ok [DecidableEq α] (buildSucceeds : α → Bool) :
    ∀ infos reg : List α, ∀ a ∈ (buildTeams buildSucceeds infos reg).1,
      buildSucceeds a = true := by
  intro infos
  induction infos with
  | nil => intro reg a ha; cases ha
  | cons info rest ih =>
    intro reg a ha
    simp only [buildTeams] at ha
    split_ifs at ha with h
    · exact ih reg a ha
    · push_neg at h
      rcases List.mem_cons.mp ha with rfl | ha2
      · exact Bool.of_not_eq_false h.2
      · exact ih (info :: reg) a ha2

theorem buildTeams_excluded_reason [DecidableEq α] (buildSucceeds : α → Bool) :
    ∀ infos reg : List α, ∀ a ∈ (buildTeams buildSucceeds infos reg).2,
      buildSucceeds a = false ∨ a ∈ reg ∨ a ∈ (buildTeams buildSucceeds infos reg).1 := by
  intro infos
  induction infos with
  | nil => intro reg a ha; cases ha
  | cons info rest ih =>
    intro reg a ha
    simp only [buildTeams] at ha ⊢
    split_ifs at ha with h
    · simp only [if_pos h]
      rcases List.mem_cons.mp ha with rfl | ha2
      · rcases h with h | h
        · exact Or.inr (Or.inl h)
        · exact Or.inl h
      · exact ih reg a ha2
    · simp only [if_neg h]
      rcases ih (info :: reg) a ha with hb | hreg | hact
      · exact Or.inl hb
      · rcases List.mem_cons.mp hreg with rfl | hreg2
        · exact Or.inr (Or.inr (List.mem_cons_self _ _))
        · exact Or.inr (Or.inl hreg2)
      · exact Or.inr (Or.inr (List.mem_cons_of_mem _ hact))

theorem buildTeams_all_ok [DecidableEq α] (buildSucceeds : α → Bool) :
    ∀ infos reg : List α, infos.Nodup → (∀ a ∈ infos, buildSucceeds a = true) →
      (∀ a ∈ infos, a ∉ reg) →
      buildTeams buildSucceeds infos reg = (infos, []) := by
  intro infos
  induction infos with
  | nil => intro reg _ _ _; rfl
  | cons info rest ih =>
    intro reg hnd hok hdisj
    have h1 : info ∉ reg := hdisj info (List.mem_cons_self _ _)
    have h2 : buildSucceeds info = true := hok info (List.mem_cons_self _ _)
    simp only [buildTeams]
    rw [if_neg (by simp [h1, h2])]
    rw [ih (info :: reg) (List.nodup_cons.mp hnd).2
      (fun a ha => hok a (List.mem_cons_of_mem _ ha))
      (fun a ha => by
        simp only [List.mem_cons]
        push_neg
        exact ⟨fun he => (List.nodup_cons.mp hnd).1 (he ▸ ha),
          hdisj a (List.mem_cons_of_mem _ ha)⟩)]

/-- C6: a team whose build fails (a docker build failure — timeout or
nonzero exit — or a duplicate team name) is excluded from the match while
the build of the remaining teams continues: active and excluded teams
together are a permutation of the input specs, every active team built
successfully, every excluded team either failed its builds or duplicates a
registered (actively built) name, and when all teams build with distinct
names nobody is excluded.  The build as a whole fails (raises) exactly
when zero teams remain active. -/
theorem build_excludes_failures [DecidableEq α] (buildSucceeds : α → Bool) (infos : List α) :
    ((teamHandlerBuild buildSucceeds infos).1 ++
        (teamHandlerBuild buildSucceeds infos).2).Perm infos ∧
    (∀ a ∈ (teamHandlerBuild buildSucceeds infos).1, buildSucceeds a = true) ∧
    (∀ a ∈ (teamHandlerBuild buildSucceeds infos).2,
      buildSucceeds a = false ∨ a ∈ (teamHandlerBuild buildSucceeds infos).1) ∧
    (infos.Nodup → (∀ a ∈ infos, buildSucceeds a = true) →
      teamHandlerBuild buildSucceeds infos = (infos, [])) ∧
    (∀ act : List α, buildFatalCheck act = Except.error () ↔ act = []) := by
  refine ⟨buildTeams_perm buildSucceeds infos [],
    buildTeams_active_ok buildSucceeds infos [], fun a ha => ?_,
    fun hnd hok => buildTeams_all_ok buildSucceeds infos [] hnd hok (by simp),
    fun act => ?_⟩
  · rcases buildTeams_excluded_reason buildSucceeds infos [] a ha with h | h | h
    · exact Or.inl h
    · cases h
    · exact Or.inr h
  · unfold buildFatalCheck
    cases act <;> simp

theorem build_excludes_failures_witness :
    teamHandlerBuild (fun _ => true) [1, 2, 3] = ([1, 2, 3], ([] : List ℕ)) :=
  (build_excludes_failures (fun _ => true) [1, 2, 3]).2.2.2.1 (by decide) (fun a _ => rfl)

/-! ## Match result and rounds (algobattle/battle_wrapper.py
`BattleWrapper.MatchResult.__init__`, algobattle/match.py `Match.run`)

`MatchResult.__init__` maps every matchup to an initially empty round
list; the `Match.run` loop then, for every matchup in order and every
round index `0 .. rounds-1`, runs the battle wrapper once and appends its
round result.  The wrapper run for matchup `m` at round `i` is abstracted
into `algo m i`. -/

/-- Embeds `MatchResult.__init__`: every matchup starts with an empty round
list. -/
def matchResultStart (ms : List μ) : List (μ × List ρ) := ms.map (fun m => (m, []))

/-- The round list of one matchup after `n` completed rounds: each round
appends its single result to the list. -/
def runRounds (algo : ℕ → ρ) : ℕ → List ρ
  | 0 => []
  | n + 1 => runRounds algo n ++ [algo n]

/-- The `Match.run` loop: for every matchup in order, all configured
rounds are executed and their results appended in round order. -/
def runMatch (algo : μ → ℕ → ρ) (ms : List μ) (rounds : ℕ) : List (μ × List ρ) :=
  ms.map (fun m => (m, runRounds (algo m) rounds))

theorem runRounds_length (algo : ℕ → ρ) : ∀ n, (runRounds algo n).length = n := by
  intro n
  induction n with
  | zero => rfl
  | succ k ih => simp [runRounds, ih]

theorem runRounds_eq_map_range (algo : ℕ → ρ) :
    ∀ n, runRounds algo n = (List.range n).map algo := by
  intro n
  induction n with
  | zero => rfl
  | succ k ih => rw [runRounds, ih, List.range_succ, List.map_append]; rfl

theorem runRounds_take (algo : ℕ → ρ) :
    ∀ n i, i ≤ n → (runRounds algo n).take i = runRounds algo i := by
  intro n
  induction n with
  | zero =>
    intro i h
    have h0 : i = 0 := by omega
    subst h0
    rfl
  | succ k ih =>
    intro i h
    by_cases hik : i ≤ k
    · rw [runRounds, List.take_append_of_le_length (by rw [runRounds_length]; exact hik),
        ih i hik]
    · have h1 : i = k + 1 := by omega
      subst h1
      rw [List.take_of_length_le (by rw [runRounds_length])]

/-- C7: after a match completes normally, the match result maps every
matchup to a list of exactly `rounds` round results, which is precisely
the results of rounds `0 .. rounds-1` in round order; the list built after
any earlier round is a prefix of the final list (never mutated once a
round finishes); with `rounds = 0` the result equals the freshly
initialized mapping with every matchup's list empty, and every team
receives 0 points. -/
theorem match_result_rounds (algo : μ → ℕ → ρ) (ms : List μ) (rounds : ℕ)
    (P : ℚ) (scores : List ℚ) :
    (∀ p ∈ runMatch algo ms rounds, p.2.length = rounds) ∧
    (∀ m ∈ ms, (m, (List.range rounds).map (algo m)) ∈ runMatch algo ms rounds) ∧
    (∀ m i, i ≤ rounds → (runRounds (algo m) rounds).take i = runRounds (algo m) i) ∧
    (runMatch algo ms 0 = matchResultStart ms) ∧
    iterated_calculate_points 0 P scores = scores.map (fun _ => 0) := by
  refine ⟨fun p hp => ?_, fun m hm => ?_, fun m i h => runRounds_take _ rounds i h, rfl, ?_⟩
  · rcases List.mem_map.mp hp with ⟨m, hm, rfl⟩
    exact runRounds_length _ rounds
  · rw [← runRounds_eq_map_range]
    exact List.mem_map_of_mem _ hm
  · rw [iterated_calculate_points, if_pos rfl]

theorem match_result_rounds_witness :
    (((), [0, 1]) : Unit × List ℕ) ∈ runMatch (fun _ i => i) [()] 2 :=
  (match_result_rounds (fun (_ : Unit) i => i) [()] 2 100 [0]).2.1 ()
    (List.mem_singleton.mpr rfl)

/-! ## Safe build, "isolation mode" (team.py `TeamHandler.build` safe
branch, `Team.archive`, `_ArchivedTeam.restore`)

The safe branch builds the teams one after another; immediately after a
team's two programs finish building the team is archived (its images
exported to a temp folder and removed from the live image store), and only
after the whole loop finishes are all archived teams restored, in build
order.  The image-store events are made explicit as a trace; a team whose
build raises leaves no live image (`TeamInfo.build` removes the already
built generator image when the solver build fails). -/

/-- An image-store event of the safe build. -/
inductive BuildEv (α : Type) where
  | buildStart (team : α)
  | buildEnd (team : α)
  | archive (team : α)
  | restore (team : α)
deriving DecidableEq

/-- The events of one team's build in the safe branch: on success the team
is archived immediately after its build ends; a failed build cleans up
after itself and leaves no live image. -/
def teamBlock (buildOk : α → Bool) (t : α) : List (BuildEv α) :=
  if buildOk t then [.buildStart t, .buildEnd t, .archive t] else [.buildStart t]

/-- The build-loop phase of the safe branch: each team's block, in team
order. -/
def buildPhase (buildOk : α → Bool) : List α → List (BuildEv α)
  | [] => []
  | t :: rest => teamBlock buildOk t ++ buildPhase buildOk rest

/-- The whole safe build: the build loop, then every successfully built
(= archived) team is restored. -/
def safeBuildTrace (buildOk : α → Bool) (infos : List α) : List (BuildEv α) :=
  buildPhase buildOk infos ++ (infos.filter buildOk).map .restore

/-- One image-store transition: a team's images become live when its build
ends or when it is restored, and stop being live when it is archived. -/
def liveStep [DecidableEq α] (live : List α) : BuildEv α → List α
  | .buildStart _ => live
  | .buildEnd t => live ++ [t]
  | .archive t => live.filter (fun u => decide (u ≠ t))
  | .restore t => live ++ [t]

/-- The teams with a live image after a list of events. -/
def liveTeams [DecidableEq α] (tr : List (BuildEv α)) : List α :=
  tr.foldl liveStep []

/-- Whether an event is a restoration. -/
def isRestoreEv : BuildEv α → Bool
  | .restore _ => true
  | _ => false

theorem teamBlock_live [DecidableEq α] (buildOk : α → Bool) (t : α) :
    liveTeams (teamBlock buildOk t) = [] := by
  unfold teamBlock
  split_ifs <;> simp [liveTeams, liveStep]

theorem buildPhase_live [DecidableEq α] (buildOk : α → Bool) :
    ∀ infos : List α, liveTeams (buildPhase buildOk infos) = [] := by
  intro infos
  induction infos with
  | nil => rfl
  | cons u rest ih =>
    show liveTeams (teamBlock buildOk u ++ buildPhase buildOk rest) = []
    rw [liveTeams, List.foldl_append]
    have h := teamBlock_live buildOk u
    rw [liveTeams] at h
    rw [h]
    exact ih

theorem buildPhase_buildStart_live [DecidableEq α] (buildOk : α → Bool) :
    ∀ (infos : List α) (pre post : List (BuildEv α)) (t : α),
      buildPhase buildOk infos = pre ++ .buildStart t :: post → liveTeams pre = [] := by
  intro infos
  induction infos with
  | nil =>
    intro pre post t h
    exact absurd h.symm (by simp [buildPhase])
  | cons u rest ih =>
    intro pre post t h
    unfold buildPhase teamBlock at h
    by_cases hok : buildOk u
    · rw [if_pos hok] at h
      cases pre with
      | nil => rfl
      | cons e1 pre1 =>
        simp only [List.cons_append, List.cons.injEq] at h
        obtain ⟨rfl, h⟩ := h
        cases pre1 with
        | nil => simp at h
        | cons e2 pre2 =>
          simp only [List.cons_append, List.cons.injEq] at h
          obtain ⟨rfl, h⟩ := h
          cases pre2 with
          | nil => simp at h
          | cons e3 pre3 =>
            simp only [List.cons_append, List.cons.injEq] at h
            obtain ⟨rfl, h⟩ := h
            have h3 := ih pre3 post t h
            rw [liveTeams] at h3 ⊢
            simp only [List.foldl_cons]
            have e : liveStep (liveStep (liveStep ([] : List α) (.buildStart u))
                (.buildEnd u)) (.archive u) = [] := by
              simp [liveStep]
            rw [e]
            exact h3
    · rw [if_neg hok] at h
      cases pre with
      | nil => rfl
      | cons e1 pre1 =>
        simp only [List.cons_append, List.cons.injEq] at h
        obtain ⟨rfl, h⟩ := h
        have h3 := ih pre1 post t h
        rw [liveTeams] at h3 ⊢
        simp only [List.foldl_cons]
        exact h3

theorem buildPhase_archive_after_build [DecidableEq α] (buildOk : α → Bool) :
    ∀ infos : List α, ∀ t ∈ infos, buildOk t = true →
      ∃ pre post, buildPhase buildOk infos = pre ++ .buildEnd t :: .archive t :: post := by
  intro infos
  induction infos with
  | nil => intro t ht; cases ht
  | cons u rest ih =>
    intro t ht hok
    rcases List.mem_cons.mp ht with rfl | ht2
    · refine ⟨[.buildStart t], buildPhase buildOk rest, ?_⟩
      show teamBlock buildOk t ++ buildPhase buildOk rest = _
      rw [teamBlock, if_pos hok]
      rfl
    · rcases ih t ht2 hok with ⟨pre, post, hp⟩
      refine ⟨teamBlock buildOk u ++ pre, post, ?_⟩
      unfold buildPhase
      rw [hp, List.append_assoc]

theorem buildPhase_no_restore [DecidableEq α] (buildOk : α → Bool) :
    ∀ infos : List α, ∀ e ∈ buildPhase buildOk infos, isRestoreEv e = false := by
  intro infos
  induction infos with
  | nil => intro e he; cases he
  | cons u rest ih =>
    intro e he
    unfold buildPhase at he
    rcases List.mem_append.mp he with he | he
    · unfold teamBlock at he
      split_ifs at he
      · simp only [List.mem_cons, List.not_mem_nil, or_false] at he
        rcases he with rfl | rfl | rfl <;> rfl
      · simp only [List.mem_cons, List.not_mem_nil, or_false] at he
        subst he
        rfl
    · exact ih e he

/-- C9: in isolation mode, whenever any team's build starts the live image
store is empty — in particular no other team's image is live during any
team's build; every successfully built team is archived immediately after
its own build ends and hence before the next team's build starts; and all
restorations come only after the entire build loop (the trace is the build
phase, which contains no restore event, followed by the restorations of
exactly the successfully built teams, in order). -/
theorem safe_build_isolation [DecidableEq α] (buildOk : α → Bool) (infos : List α) :
    (∀ pre post (t : α), safeBuildTrace buildOk infos = pre ++ .buildStart t :: post →
      liveTeams pre = []) ∧
    (∀ t ∈ infos, buildOk t = true →
      ∃ pre post, safeBuildTrace buildOk infos = pre ++ .buildEnd t :: .archive t :: post) ∧
    (safeBuildTrace buildOk infos
      = buildPhase buildOk infos ++ (infos.filter buildOk).map .restore) ∧
    (∀ e ∈ buildPhase buildOk infos, isRestoreEv e = false) ∧
    (∀ e ∈ (infos.filter buildOk).map (BuildEv.restore : α → BuildEv α), isRestoreEv e = true) := by
  refine ⟨fun pre post t h => ?_, fun t ht hok => ?_, rfl,
    buildPhase_no_restore buildOk infos, fun e he => ?_⟩
  · unfold safeBuildTrace at h
    rcases List.append_eq_append_iff.mp h with ⟨a, ha, hb⟩ | ⟨c, hc, hd⟩
    · exfalso
      have : BuildEv.buildStart t ∈ (infos.filter buildOk).map (BuildEv.restore : α → BuildEv α) := by
        rw [hb]
        exact List.mem_append_right _ (List.mem_cons_self _ _)
      rcases List.mem_map.mp this with ⟨x, _, hx⟩
      exact BuildEv.noConfusion hx
    · cases c with
      | nil =>
        exfalso
        have : BuildEv.buildStart t ∈ (infos.filter buildOk).map (BuildEv.restore : α → BuildEv α) := by
          simp only [List.nil_append] at hd
          rw [← hd]
          exact List.mem_cons_self _ _
        rcases List.mem_map.mp this with ⟨x, _, hx⟩
        exact BuildEv.noConfusion hx
      | cons e1 c1 =>
        simp only [List.cons_append, List.cons.injEq] at hd
        obtain ⟨rfl, _⟩ := hd
        exact buildPhase_buildStart_live buildOk infos pre c1 t hc
  · rcases buildPhase_archive_after_build buildOk infos t ht hok with ⟨pre, post, hp⟩
    exact ⟨pre, post ++ (infos.filter buildOk).map .restore, by
      unfold safeBuildTrace
      rw [hp]
      simp [List.append_assoc]⟩
  · rcases List.mem_map.mp he with ⟨x, _, rfl⟩
    rfl

theorem safe_build_isolation_witness :
    liveTeams [BuildEv.buildStart 1, BuildEv.buildEnd 1, BuildEv.archive 1] = ([] : List ℕ) :=
  (safe_build_isolation (fun _ => true) ([1, 2] : List ℕ)).1
    [.buildStart 1, .buildEnd 1, .archive 1]
    [.buildEnd 2, .archive 2, .restore 1, .restore 2] 2 (by decide)

/-! ## Tar archive round trip (algobattle/util.py `archive` / `extract`)

util.py delegates to Python's tarfile with `mode="w"` / `mode="r"`.  The
subset of the on-disk tar format those calls exercise for a single member
whose name fits the ustar header is modelled at byte level (byte = `Nat`):
a 512-byte header whose name field (offset 0, 100 bytes, NUL-padded) and
size field (offset 124, eleven zero-padded octal digits and a NUL) are
exactly the fields extraction reads back; the member data NUL-padded to a
block boundary; an end-of-archive marker of two NUL blocks; and NUL
padding to the 20-block record size.  Reading mirrors tarfile: a stored
name is parsed up to the first NUL, and `TarFile.getmember` strips
trailing slashes (byte 47) from the requested name before comparing.
Python strings are represented by their UTF-8 byte lists
(`str.encode` / `bytes.decode` round-trip losslessly). -/

/-- Eleven zero-padded octal digits followed by a NUL: the ustar number
field as written by tarfile (`itn`). -/
def octal12 (n : Nat) : List Nat :=
  ((List.range 11).reverse.map (fun i => 48 + n / 8 ^ i % 8)) ++ [0]

/-- Parse a NUL-terminated octal field (tarfile's `nti`). -/
def parseOctal (l : List Nat) : Nat :=
  (l.takeWhile (fun b => decide (b ≠ 0))).foldl (fun acc d => acc * 8 + (d - 48)) 0

/-- The 100-byte NUL-padded name field of a ustar header. -/
def nameField (f : List Nat) : List Nat := f ++ List.replicate (100 - f.length) 0

/-- The 512-byte ustar header of a regular member with the given name and
size.  Extraction reads only the name and the size field at offset 124;
the mode/uid/gid fields filling offsets 100-124 and everything after the
size field do not influence it and are modelled as NUL filler. -/
def tarHeader (f : List Nat) (size : Nat) : List Nat :=
  nameField f ++ List.replicate 24 0 ++ octal12 size ++ List.replicate 376 0

/-- NUL padding to the next 512-byte block boundary after `len` data
bytes (tarfile `addfile`). -/
def blockPad (len : Nat) : Nat := if len % 512 = 0 then 0 else 512 - len % 512

/-- NUL padding of the closed archive to the 20-block record size
(tarfile `close`, RECORDSIZE = 10240). -/
def recordPad (len : Nat) : Nat := if len % 10240 = 0 then 0 else 10240 - len % 10240

/-- util.py `archive`: encode the input, write one member of that content
under the given name, and close the archive (two NUL end blocks, then
record padding). -/
def archive (input : List Nat) (filename : List Nat) : List Nat :=
  let body := tarHeader filename input.length ++ input
    ++ List.replicate (blockPad input.length) 0 ++ List.replicate 1024 0
  body ++ List.replicate (recordPad body.length) 0

/-- Embeds `TarFile.getmember`'s `name.rstrip('/')` on the requested name; 47 is
the byte of `/`. -/
def rstripSlash (f : List Nat) : List Nat :=
  (f.reverse.dropWhile (fun b => decide (b = 47))).reverse

/-- The member-scan loop of extraction (tarfile `next`/`getmember`):
read a header block, stop at an all-NUL block, otherwise parse the stored
name up to the first NUL and the size field, return the member's data on
a name match and skip `size` bytes rounded up to a block boundary
otherwise.  The fuel only bounds the loop; every iteration consumes at
least one 512-byte block, so `ar.length` iterations always suffice. -/
def tarFindFuel (f : List Nat) : Nat → List Nat → Option (List Nat)
  | 0, _ => none
  | fuel + 1, ar =>
    if ar.length < 512 then none
    else
      let hdr := ar.take 512
      if hdr.all (fun b => decide (b = 0)) then none
      else
        let name := (hdr.take 100).takeWhile (fun b => decide (b ≠ 0))
        let size := parseOctal ((hdr.drop 124).take 12)
        let rest := ar.drop 512
        if name = rstripSlash f then some (rest.take size)
        else tarFindFuel f fuel (rest.drop (size + blockPad size))

/-- util.py `extract`: find the member of the requested name and return
its decoded content; `none` models the KeyError / failed assertion
paths. -/
def extract (ar : List Nat) (filename : List Nat) : Option (List Nat) :=
  tarFindFuel filename ar.length ar

theorem octal12_length (n : Nat) : (octal12 n).length = 12 := by
  simp [octal12]

theorem nameField_length (f : List Nat) (h : f.length ≤ 100) :
    (nameField f).length = 100 := by
  simp only [nameField, List.length_append, List.length_replicate]
  omega

theorem tarHeader_length (f : List Nat) (n : Nat) (h : f.length ≤ 100) :
    (tarHeader f n).length = 512 := by
  simp only [tarHeader, List.length_append, List.length_replicate,
    nameField_length f h, octal12_length]

theorem takeWhile_append_all {p : Nat → Bool} :
    ∀ l l' : List Nat, (∀ x ∈ l, p x = true) →
      (l ++ l').takeWhile p = l ++ l'.takeWhile p := by
  intro l
  induction l with
  | nil => intro l' _; rfl
  | cons x xs ih =>
    intro l' hall
    rw [List.cons_append, List.takeWhile_cons, hall x (List.mem_cons_self _ _)]
    rw [ih l' (fun y hy => hall y (List.mem_cons_of_mem _ hy))]
    rfl

theorem takeWhile_ne_zero_replicate (k : Nat) :
    (List.replicate k 0).takeWhile (fun b => decide (b ≠ 0)) = [] := by
  cases k with
  | zero => rfl
  | succ m => rfl

theorem nameField_parse (f : List Nat) (hnul : 0 ∉ f) :
    (nameField f).takeWhile (fun b => decide (b ≠ 0)) = f := by
  unfold nameField
  rw [takeWhile_append_all _ _ (fun x hx => by
      simp only [decide_eq_true_eq]
      intro h0
      exact hnul (h0 ▸ hx)),
    takeWhile_ne_zero_replicate, List.append_nil]

theorem foldl_octal (n : Nat) :
    ∀ k acc, ((List.range k).reverse.map (fun i => 48 + n / 8 ^ i % 8)).foldl
        (fun acc d => acc * 8 + (d - 48)) acc = acc * 8 ^ k + n % 8 ^ k := by
  intro k
  induction k with
  | zero => intro acc; simp [Nat.mod_one]
  | succ m ih =>
    intro acc
    rw [List.range_succ]
    simp only [List.reverse_append, List.reverse_cons, List.reverse_nil, List.nil_append,
      List.cons_append, List.map_cons, List.foldl_cons]
    rw [Nat.add_sub_cancel_left, ih, pow_succ, Nat.mod_mul]
    ring

theorem parseOctal_octal12 (n : Nat) (h : n < 8 ^ 11) : parseOctal (octal12 n) = n := by
  unfold parseOctal octal12
  rw [takeWhile_append_all _ _ (fun x hx => by
      simp only [decide_eq_true_eq]
      rcases List.mem_map.mp hx with ⟨i, _, rfl⟩
      omega)]
  rw [show ([0] : List Nat).takeWhile (fun b => decide (b ≠ 0)) = [] from rfl,
    List.append_nil, foldl_octal n 11 0]
  simp only [Nat.zero_mul, Nat.zero_add]
  omega

theorem tarHeader_not_all_zero (f : List Nat) (n : Nat) :
    (tarHeader f n).all (fun b => decide (b = 0)) = false := by
  apply Bool.eq_false_iff.mpr
  intro hall
  have h10 : (10 : ℕ) ∈ (List.range 11).reverse := by decide
  have hmem : (48 + n / 8 ^ 10 % 8) ∈ tarHeader f n := by
    unfold tarHeader octal12
    exact List.mem_append_left _ (List.mem_append_right _
      (List.mem_append_left _ (List.mem_map_of_mem _ h10)))
  have := List.all_eq_true.mp hall _ hmem
  simp only [decide_eq_true_eq] at this
  omega

theorem tarHeader_take_100 (f : List Nat) (n : Nat) (hlen : f.length ≤ 100) :
    (tarHeader f n).take 100 = nameField f := by
  unfold tarHeader
  simp only [List.append_assoc]
  exact List.take_left' (nameField_length f hlen)

theorem tarHeader_size_slice (f : List Nat) (n : Nat) (hlen : f.length ≤ 100) :
    ((tarHeader f n).drop 124).take 12 = octal12 n := by
  have h124 : (nameField f ++ List.replicate 24 0).length = 124 := by
    simp [nameField_length f hlen]
  unfold tarHeader
  rw [List.append_assoc (nameField f ++ List.replicate 24 0) (octal12 n) _,
    List.drop_left' h124]
  exact List.take_left' (octal12_length n)

/-- One step of the member scan on an archive starting with a well-formed
header: the header is parsed back into the stored name and size, and the
scan either returns the member's data or skips past it. -/
theorem tarFindFuel_step (g f : List Nat) (n : Nat) (rest : List Nat) (fuel : Nat)
    (hlen : f.length ≤ 100) :
    tarFindFuel g (fuel + 1) (tarHeader f n ++ rest) =
      if (nameField f).takeWhile (fun b => decide (b ≠ 0)) = rstripSlash g then
        some (rest.take (parseOctal (octal12 n)))
      else
        tarFindFuel g fuel
          (rest.drop (parseOctal (octal12 n) + blockPad (parseOctal (octal12 n)))) := by
  have hhd := tarHeader_length f n hlen
  have hlen_ar : ¬ (tarHeader f n ++ rest).length < 512 := by
    simp only [List.length_append, hhd]
    omega
  have htake : (tarHeader f n ++ rest).take 512 = tarHeader f n := List.take_left' hhd
  have hdrop : (tarHeader f n ++ rest).drop 512 = rest := List.drop_left' hhd
  simp only [tarFindFuel]
  rw [if_neg hlen_ar, htake, hdrop, tarHeader_not_all_zero]
  simp only [Bool.false_eq_true, if_false]
  rw [tarHeader_take_100 f n hlen, tarHeader_size_slice f n hlen]

/-- The archive written by util.py `archive`: the header, then the member
data padded to a block boundary, then only NUL bytes (the end-of-archive
marker and the record padding). -/
theorem archive_decomp (input f : List Nat) :
    ∃ k, archive input f = tarHeader f input.length ++
      ((input ++ List.replicate (blockPad input.length) 0) ++ List.replicate k 0) := by
  refine ⟨1024 + recordPad ((tarHeader f input.length ++ input ++
    List.replicate (blockPad input.length) 0 ++ List.replicate 1024 0).length), ?_⟩
  unfold archive
  rw [List.replicate_add]
  simp only [List.append_assoc]

/-- A scan over nothing but NUL bytes finds no member: it stops at the
end-of-archive marker (or runs out of bytes). -/
theorem tarFindFuel_zeros (g : List Nat) :
    ∀ fuel k, tarFindFuel g fuel (List.replicate k 0) = none := by
  intro fuel
  cases fuel with
  | zero => intro k; rfl
  | succ m =>
    intro k
    simp only [tarFindFuel]
    by_cases hk : (List.replicate k (0 : Nat)).length < 512
    · rw [if_pos hk]
    · rw [if_neg hk]
      have hall : ((List.replicate k (0 : Nat)).take 512).all (fun b => decide (b = 0))
          = true := by
        rw [List.take_replicate]
        exact List.all_eq_true.mpr fun x hx => by rw [List.eq_of_mem_replicate hx]; rfl
      rw [if_pos hall]

/-- C10 (amended): the tar round trip holds for every content and every
filename that fits the ustar name field: at most 100 UTF-8 bytes, no NUL
byte, and no trailing slash (`rstripSlash f = f`); the size bound is the
eleven-octal-digit limit of the ustar size field. -/
theorem extract_archive (input f : List Nat) (hlen : f.length ≤ 100) (hnul : 0 ∉ f)
    (hslash : rstripSlash f = f) (hsize : input.length < 8 ^ 11) :
    extract (archive input f) f = some input := by
  obtain ⟨k, harch⟩ := archive_decomp input f
  unfold extract
  rw [harch]
  have hne : (tarHeader f input.length ++
      ((input ++ List.replicate (blockPad input.length) 0) ++ List.replicate k 0)).length
        ≠ 0 := by
    simp only [List.length_append, tarHeader_length f _ hlen]
    omega
  obtain ⟨m, hm⟩ := Nat.exists_eq_succ_of_ne_zero hne
  rw [hm, tarFindFuel_step f f input.length _ m hlen,
    if_pos (by rw [nameField_parse f hnul, hslash]), parseOctal_octal12 input.length hsize,
    List.append_assoc, List.take_left]

/-- When the stored member's parsed name does not match the requested
(slash-stripped) name, the scan skips the member, meets only NUL bytes
and reports no member — modelling the KeyError that tarfile raises. -/
theorem extract_archive_no_match (input f g : List Nat) (hlenf : f.length ≤ 100)
    (hmm : (nameField f).takeWhile (fun b => decide (b ≠ 0)) ≠ rstripSlash g)
    (hsize : input.length < 8 ^ 11) :
    extract (archive input f) g = none := by
  obtain ⟨k, harch⟩ := archive_decomp input f
  unfold extract
  rw [harch]
  have hne : (tarHeader f input.length ++
      ((input ++ List.replicate (blockPad input.length) 0) ++ List.replicate k 0)).length
        ≠ 0 := by
    simp only [List.length_append, tarHeader_length f _ hlenf]
    omega
  obtain ⟨m, hm⟩ := Nat.exists_eq_succ_of_ne_zero hne
  rw [hm, tarFindFuel_step g f input.length _ m hlenf, if_neg hmm,
    parseOctal_octal12 input.length hsize,
    List.drop_left' (by simp), tarFindFuel_zeros]

/-- C10 counterexample: for the filename `"a\x00b"`-like byte string
`[97, 0]` (a NUL byte inside the name), the ustar name field stores the
NUL-padded bytes and reading parses the name only up to the first NUL, so
looking the original name up fails: Python's `extract` raises KeyError
instead of returning the content (verified against CPython tarfile). -/
theorem extract_archive_nul_counterexample :
    extract (archive [104] [97, 0]) [97, 0] = none ∧
    extract (archive [104] [97, 0]) [97, 0] ≠ some [104] := by
  have h : extract (archive [104] [97, 0]) [97, 0] = none :=
    extract_archive_no_match [104] [97, 0] [97, 0] (by norm_num) (by decide) (by norm_num)
  exact ⟨h, by rw [h]; exact fun hc => Option.noConfusion hc⟩

theorem extract_archive_witness :
    extract (archive [104, 105] [102]) [102] = some [104, 105] :=
  extract_archive [104, 105] [102] (by norm_num) (by decide) (by decide) (by norm_num)

end Algobattle
